/-
Verification development for the Cetus CLMM rebalancing bot.

Shallow embedding notes:
* `utils/tickMath.ts` of the SDK flavour (tickIndexToSqrtPriceX64,
  sqrtPriceX64ToTickIndex) computes with decimal.js arbitrary-precision
  decimals; we model that arithmetic as exact real/rational arithmetic.
  The forward conversion is a computable integer function; the inverse
  needs a real logarithm and is therefore noncomputable.
* The bot's own `utils/tickMath.ts` (isTickInRange, calculatePriceDeviation,
  calculateTickRange, getAmountAFromLiquidity, getAmountBFromLiquidity,
  tickToSqrtPrice) is not among the sources - only its callers and tests
  are - so those definitions are modelled from the spec and marked as such.
* JavaScript `number` values that only ever hold exact small integers are
  modelled as ℤ/ℕ; percentages are modelled as ℚ.
-/
import Mathlib

/-- Lower tick bound of the CLMM protocol, from tickMath.ts. -/
def MIN_TICK : ℤ := -443636

/-- Upper tick bound of the CLMM protocol, from tickMath.ts. -/
def MAX_TICK : ℤ := 443636

/-- Exact value of `new Decimal(1.0001).pow(tick)` (decimal.js arbitrary
precision modelled as exact rational arithmetic): price = 1.0001 ^ tick. -/
def tickPriceQ (t : ℤ) : ℚ := (10001 / 10000 : ℚ) ^ t

/-- Numeric core of `tickIndexToSqrtPriceX64`: the source computes
`price.sqrt().mul(Decimal(2).pow(64)).toFixed(0)`, i.e. sqrt(price) * 2^64
rounded half-up to an integer (decimal.js default ROUND_HALF_UP; every value
here is positive).  Exactly, round(sqrt(p) * 2^64) = round(sqrt(p * 2^128)),
and for a nonnegative rational x, round(sqrt x) = (Nat.sqrt ⌊4*x⌋ + 1) / 2,
which is the executable form used below (proved as `round_sqrt_ratCast`). -/
def sqrtPriceX64OfTick (t : ℤ) : ℤ :=
  ((Nat.sqrt ⌊tickPriceQ t * 2 ^ 130⌋₊ + 1) / 2 : ℕ)

/-- Errors raised by the tick-math core (`throw new Error(...)` in source;
the spec calls this OutOfBoundsError). -/
inductive TickMathError where
  | outOfBounds (tick : ℤ)
deriving DecidableEq, Repr

/-- `tickIndexToSqrtPriceX64` from tickMath.ts: guard the tick bounds, then
convert.  `throw` is modelled as `Except.error`. -/
def tickIndexToSqrtPriceX64 (tick : ℤ) : Except TickMathError ℤ :=
  if tick < MIN_TICK ∨ tick > MAX_TICK then .error (.outOfBounds tick)
  else .ok (sqrtPriceX64OfTick tick)

/-- `sqrtPriceX64ToTickIndex` from tickMath.ts: divide by 2^64, square,
take log base 1.0001, round to the nearest integer (`Math.round`, which is
floor(x + 1/2), matching Mathlib's `round`).  The decimal.js logarithm is
modelled as the exact real logarithm, hence noncomputable. -/
noncomputable def sqrtPriceX64ToTickIndex (sqrtPriceX64 : ℤ) : ℤ :=
  round (Real.logb (10001 / 10000) (((sqrtPriceX64 : ℝ) / 2 ^ 64) ^ 2))

/-- Pool snapshot, from types/index.ts (`currentSqrtPrice` is a decimal
string holding an unsigned on-chain u128, modelled as ℕ). -/
structure Pool where
  id : String
  coinTypeA : String
  coinTypeB : String
  currentSqrtPrice : ℕ
  currentTick : ℤ
  tickSpacing : ℤ
  feeRate : ℚ

/-- Position snapshot, from types/index.ts (`liquidity` is a decimal string
holding an unsigned on-chain u128, modelled as ℕ). -/
structure Position where
  id : String
  poolId : String
  tickLower : ℤ
  tickUpper : ℤ
  liquidity : ℕ
  coinA : String
  coinB : String

/-- Rebalance decision value object, from types/index.ts. -/
structure RebalanceDecision where
  shouldRebalance : Bool
  reason : String
  currentTick : ℤ
  tickLower : ℤ
  tickUpper : ℤ
  priceDeviation : ℚ

/-- Tick range, from types/index.ts. -/
structure TickRange where
  tickLower : ℤ
  tickUpper : ℤ
deriving DecidableEq, Repr

/-- Modelled from the spec: `isTickInRange` lives in the bot's
`utils/tickMath.ts`, which is not among the sources (only its caller
`PositionMonitor.checkRebalanceNeeded` is).  The spec defines
`inRange = position.tickLower <= pool.currentTick < position.tickUpper`
(upper bound exclusive). -/
def isTickInRange (currentTick tickLower tickUpper : ℤ) : Bool :=
  decide (tickLower ≤ currentTick) && decide (currentTick < tickUpper)

/-- Modelled from the spec: `calculatePriceDeviation` lives in the bot's
`utils/tickMath.ts`, which is not among the sources.  The spec defines the
deviation as the signed percentage distance, in price space, from the
current tick to the nearest violated boundary:
`(price(currentTick) - price(boundary)) / price(boundary) * 100`,
negative below `tickLower`, positive above `tickUpper`.  (Only called when
the tick is outside the range; the upper boundary is the `else` arm.) -/
def calculatePriceDeviation (currentTick tickLower tickUpper : ℤ) : ℚ :=
  if currentTick < tickLower then
    (tickPriceQ currentTick - tickPriceQ tickLower) / tickPriceQ tickLower * 100
  else
    (tickPriceQ currentTick - tickPriceQ tickUpper) / tickPriceQ tickUpper * 100

/-- Model of JavaScript `x.toFixed(2)` on an exact rational: sign of `x`,
then |x| rounded to two decimals (nearest, ties up, per ECMA toFixed). -/
def toFixed2 (q : ℚ) : String :=
  let m : ℕ := (round (|q| * 100)).toNat
  let sign := if q < 0 then "-" else ""
  let frac := m % 100
  sign ++ Nat.repr (m / 100) ++ "." ++
    (if frac < 10 then "0" ++ Nat.repr frac else Nat.repr frac)

/-- `PositionMonitor.checkRebalanceNeeded` from suiClient.ts, with the
snapshot fetches and logging stripped: the pool/position snapshots arrive
as arguments and `config.rebalanceThresholdPercent` as a parameter. -/
def checkRebalanceNeeded (pool : Pool) (position : Position)
    (rebalanceThresholdPercent : ℚ) : RebalanceDecision :=
  if isTickInRange pool.currentTick position.tickLower position.tickUpper then
    { shouldRebalance := false
      reason := "Position is in range"
      currentTick := pool.currentTick
      tickLower := position.tickLower
      tickUpper := position.tickUpper
      priceDeviation := 0 }
  else
    let deviation :=
      calculatePriceDeviation pool.currentTick position.tickLower position.tickUpper
    if |deviation| < rebalanceThresholdPercent then
      { shouldRebalance := false
        reason := "Deviation " ++ toFixed2 deviation ++ "% below threshold"
        currentTick := pool.currentTick
        tickLower := position.tickLower
        tickUpper := position.tickUpper
        priceDeviation := deviation }
    else
      { shouldRebalance := true
        reason := "Price moved " ++ toFixed2 deviation ++ "% outside range"
        currentTick := pool.currentTick
        tickLower := position.tickLower
        tickUpper := position.tickUpper
        priceDeviation := deviation }

/-- Modelled from the spec: the bigint-valued `tickToSqrtPrice` of the bot's
`utils/tickMath.ts` is not among the sources; the spec computes
`floor(sqrt(1.0001^tick) * 2^64)`.  Exactly, floor(sqrt(p) * 2^64) =
floor(sqrt(p * 2^128)) = Nat.sqrt ⌊p * 2^128⌋. -/
def tickToSqrtPrice (t : ℤ) : ℕ :=
  Nat.sqrt ⌊tickPriceQ t * 2 ^ 128⌋₊

/-- Modelled from the spec: `getAmountAFromLiquidity` of the bot's
`utils/tickMath.ts` is not among the sources; the spec gives
`floor(L * (sqrtB - sqrtA) * 2^64 / (sqrtA * sqrtB))` after a
swap-if-needed normalization so that sqrtA <= sqrtB.  Division is
truncating natural division (all operands nonnegative). -/
def getAmountAFromLiquidity (sqrtPriceA sqrtPriceB liquidity : ℕ) : ℕ :=
  let a := min sqrtPriceA sqrtPriceB
  let b := max sqrtPriceA sqrtPriceB
  liquidity * (b - a) * 2 ^ 64 / (a * b)

/-- Modelled from the spec: `getAmountBFromLiquidity`, as above:
`floor(L * (sqrtB - sqrtA) / 2^64)` after normalization. -/
def getAmountBFromLiquidity (sqrtPriceA sqrtPriceB liquidity : ℕ) : ℕ :=
  let a := min sqrtPriceA sqrtPriceB
  let b := max sqrtPriceA sqrtPriceB
  liquidity * (b - a) / 2 ^ 64

/-- `RebalanceService.calculateExpectedAmounts` from
rebalanceService.ts.backup: three price-position regimes selected by
comparing the pool's current sqrt price with the position's boundary
sqrt prices. -/
def calculateExpectedAmounts (pool : Pool) (position : Position) : ℕ × ℕ :=
  let sqrtPriceCurrent := pool.currentSqrtPrice
  let sqrtPriceLower := tickToSqrtPrice position.tickLower
  let sqrtPriceUpper := tickToSqrtPrice position.tickUpper
  let liquidity := position.liquidity
  if sqrtPriceCurrent ≤ sqrtPriceLower then
    (getAmountAFromLiquidity sqrtPriceLower sqrtPriceUpper liquidity, 0)
  else if sqrtPriceUpper ≤ sqrtPriceCurrent then
    (0, getAmountBFromLiquidity sqrtPriceLower sqrtPriceUpper liquidity)
  else
    (getAmountAFromLiquidity sqrtPriceCurrent sqrtPriceUpper liquidity,
     getAmountBFromLiquidity sqrtPriceLower sqrtPriceCurrent liquidity)

/-- Greatest multiple of `s` that is ≤ `a` (for `s > 0`): align down. -/
def alignDown (a s : ℤ) : ℤ := a - a % s

/-- Least multiple of `s` that is ≥ `a` (for `s > 0`): align up. -/
def alignUp (a s : ℤ) : ℤ := alignDown (a + s - 1) s

/-- Error raised by range calculation (the spec's InvalidRangeError). -/
inductive RangeError where
  | invalidRange
deriving DecidableEq, Repr

/-- Modelled from the spec: the half-width in ticks for a percent width,
`round(log(1 + widthPercent/200) / log(1.0001))`. -/
noncomputable def halfWidthTicks (widthPercent : ℚ) : ℤ :=
  round (Real.logb (10001 / 10000) (1 + (widthPercent : ℝ) / 200))

/-- Modelled from the spec: `calculateTickRange` of the bot's
`utils/tickMath.ts` is not among the sources (only callers in
rebalanceService.ts / rebalanceService.ts.backup are).  Per the spec:
center a symmetric half-width on `currentTick`, align the bounds down/up
to multiples of `tickSpacing`, shift a bound outward by one spacing if the
naive rounding put `currentTick` exactly on it, and fail with
InvalidRangeError when the result is out of protocol bounds or empty. -/
noncomputable def calculateTickRange (currentTick : ℤ) (widthPercent : ℚ)
    (tickSpacing : ℤ) : Except RangeError TickRange :=
  let h := halfWidthTicks widthPercent
  let rawLower := currentTick - h
  let rawUpper := currentTick + h
  let lower0 := alignDown rawLower tickSpacing
  let upper0 := alignUp rawUpper tickSpacing
  let lower := if lower0 = currentTick then lower0 - tickSpacing else lower0
  let upper := if upper0 = currentTick then upper0 + tickSpacing else upper0
  if MIN_TICK ≤ lower ∧ upper ≤ MAX_TICK ∧ lower < upper then
    .ok ⟨lower, upper⟩
  else
    .error .invalidRange

/-- Needle-at-front test on character lists (`segAt needle hay`). -/
def segAt : List Char → List Char → Bool
  | [], _ => true
  | _ :: _, [] => false
  | c :: cs, d :: ds => c == d && segAt cs ds

/-- Contiguous-segment test on character lists (`hasSeg needle hay`). -/
def hasSeg : List Char → List Char → Bool
  | n, [] => segAt n []
  | n, c :: cs => segAt n (c :: cs) || hasSeg n cs

/-- Whether `pat` occurs as a contiguous substring of `s`. -/
def strHasSeg (s pat : String) : Bool := hasSeg pat.data s.data

-- ===================== theorems =====================

/-- C5: tickIndexToSqrtPriceX64 at tick 0 is exactly 2^64. -/
theorem tickIndexToSqrtPriceX64_tickZero :
    tickIndexToSqrtPriceX64 0 = .ok (2 ^ 64) := by
  have hcore : sqrtPriceX64OfTick 0 = 2 ^ 64 := by
    have key : ⌊tickPriceQ 0 * 2 ^ 130⌋₊ = (2 ^ 65) ^ 2 := by
      have h1 : tickPriceQ 0 * 2 ^ 130 = (((2 ^ 65) ^ 2 : ℕ) : ℚ) := by
        simp [tickPriceQ]
        ring
      rw [h1, Nat.floor_natCast]
    rw [sqrtPriceX64OfTick]
    simp only [key, Nat.sqrt_eq']
    norm_num
  rw [tickIndexToSqrtPriceX64, if_neg (by decide), hcore]

/-- C4: tickIndexToSqrtPriceX64 fails with OutOfBoundsError for every tick
strictly outside [MIN_TICK, MAX_TICK] = [-443636, 443636], and returns a
value for every tick inside the bounds; it never silently clamps an
out-of-bounds argument (the out-of-bounds branch always errors). -/
theorem tickIndexToSqrtPriceX64_bounds (tick : ℤ) :
    ((tick < MIN_TICK ∨ MAX_TICK < tick) →
      tickIndexToSqrtPriceX64 tick = .error (.outOfBounds tick)) ∧
    (MIN_TICK ≤ tick → tick ≤ MAX_TICK →
      ∃ v, tickIndexToSqrtPriceX64 tick = .ok v) := by
  constructor
  · intro h
    rw [tickIndexToSqrtPriceX64, if_pos]
    exact h
  · intro h1 h2
    refine ⟨sqrtPriceX64OfTick tick, ?_⟩
    rw [tickIndexToSqrtPriceX64, if_neg]
    push_neg
    exact ⟨h1, h2⟩

/-- C4 witness: the bounds theorem applied at 443637, -443637 and 0. -/
theorem tickIndexToSqrtPriceX64_bounds_witness :
    tickIndexToSqrtPriceX64 443637 = .error (.outOfBounds 443637) ∧
    tickIndexToSqrtPriceX64 (-443637) = .error (.outOfBounds (-443637)) ∧
    ∃ v, tickIndexToSqrtPriceX64 0 = .ok v :=
  ⟨(tickIndexToSqrtPriceX64_bounds 443637).1 (by right; decide),
   (tickIndexToSqrtPriceX64_bounds (-443637)).1 (by left; decide),
   (tickIndexToSqrtPriceX64_bounds 0).2 (by decide) (by decide)⟩

/-- C10: on every branch, the returned RebalanceDecision echoes its inputs:
currentTick equals the pool's currentTick and tickLower/tickUpper equal the
position's bounds. -/
theorem checkRebalanceNeeded_echoes_inputs (pool : Pool) (position : Position)
    (rebalanceThresholdPercent : ℚ) :
    (checkRebalanceNeeded pool position rebalanceThresholdPercent).currentTick
        = pool.currentTick ∧
    (checkRebalanceNeeded pool position rebalanceThresholdPercent).tickLower
        = position.tickLower ∧
    (checkRebalanceNeeded pool position rebalanceThresholdPercent).tickUpper
        = position.tickUpper := by
  rw [checkRebalanceNeeded]
  split
  · exact ⟨rfl, rfl, rfl⟩
  · dsimp only
    split
    · exact ⟨rfl, rfl, rfl⟩
    · exact ⟨rfl, rfl, rfl⟩

/-- C1: whenever the current tick is inside the position's range (upper
bound exclusive), the decision is shouldRebalance = false with
priceDeviation = 0, regardless of the configured threshold. -/
theorem checkRebalanceNeeded_inRange (pool : Pool) (position : Position)
    (rebalanceThresholdPercent : ℚ)
    (hlo : position.tickLower ≤ pool.currentTick)
    (hhi : pool.currentTick < position.tickUpper) :
    (checkRebalanceNeeded pool position rebalanceThresholdPercent).shouldRebalance
        = false ∧
    (checkRebalanceNeeded pool position rebalanceThresholdPercent).priceDeviation
        = 0 := by
  rw [checkRebalanceNeeded, if_pos]
  · exact ⟨rfl, rfl⟩
  · simp [isTickInRange, hlo, hhi]

/-- C1 witness: decision scenario A, currentTick 0 in range [-1000, 1000]
with the default 2 percent threshold. -/
theorem checkRebalanceNeeded_inRange_witness :
    (checkRebalanceNeeded
        ⟨"pool", "A", "B", 18446744073709551616, 0, 60, 3/1000⟩
        ⟨"pos", "pool", -1000, 1000, 1000000, "A", "B"⟩ 2).shouldRebalance
      = false ∧
    (checkRebalanceNeeded
        ⟨"pool", "A", "B", 18446744073709551616, 0, 60, 3/1000⟩
        ⟨"pos", "pool", -1000, 1000, 1000000, "A", "B"⟩ 2).priceDeviation
      = 0 :=
  checkRebalanceNeeded_inRange _ _ 2 (by decide) (by decide)

/-- C2: out of range, the decision triggers exactly when the absolute
deviation reaches the configured threshold; strictly below the threshold
it is shouldRebalance = false and the decision carries the computed
deviation. -/
theorem checkRebalanceNeeded_thresholdGate (pool : Pool) (position : Position)
    (θ : ℚ)
    (hout : ¬(position.tickLower ≤ pool.currentTick ∧
              pool.currentTick < position.tickUpper)) :
    ((checkRebalanceNeeded pool position θ).shouldRebalance = true ↔
      θ ≤ |calculatePriceDeviation pool.currentTick position.tickLower
            position.tickUpper|) ∧
    (|calculatePriceDeviation pool.currentTick position.tickLower
        position.tickUpper| < θ →
      (checkRebalanceNeeded pool position θ).shouldRebalance = false ∧
      (checkRebalanceNeeded pool position θ).priceDeviation =
        calculatePriceDeviation pool.currentTick position.tickLower
          position.tickUpper) := by
  have hnot : ¬(isTickInRange pool.currentTick position.tickLower
      position.tickUpper = true) := by
    simp only [isTickInRange, Bool.and_eq_true, decide_eq_true_eq]
    intro h
    exact hout h
  rw [checkRebalanceNeeded, if_neg hnot]
  dsimp only
  by_cases hlt : |calculatePriceDeviation pool.currentTick position.tickLower
      position.tickUpper| < θ
  · rw [if_pos hlt]
    refine ⟨?_, fun _ => ⟨rfl, rfl⟩⟩
    simp only [Bool.false_eq_true, false_iff, not_le]
    exact hlt
  · rw [if_neg hlt]
    exact ⟨by simp [not_lt.mp hlt], fun h => absurd h hlt⟩

/-- C2 witness: decision scenario B, currentTick 50 below range [100, 2000]
with the default 2 percent threshold. -/
theorem checkRebalanceNeeded_thresholdGate_witness :
    ((checkRebalanceNeeded ⟨"pool", "A", "B", 18446744073709551616, 50, 60, 3/1000⟩
        ⟨"pos", "pool", 100, 2000, 1000000, "A", "B"⟩ 2).shouldRebalance = true ↔
      (2:ℚ) ≤ |calculatePriceDeviation 50 100 2000|) ∧
    (|calculatePriceDeviation 50 100 2000| < 2 →
      (checkRebalanceNeeded ⟨"pool", "A", "B", 18446744073709551616, 50, 60, 3/1000⟩
        ⟨"pos", "pool", 100, 2000, 1000000, "A", "B"⟩ 2).shouldRebalance = false ∧
      (checkRebalanceNeeded ⟨"pool", "A", "B", 18446744073709551616, 50, 60, 3/1000⟩
        ⟨"pos", "pool", 100, 2000, 1000000, "A", "B"⟩ 2).priceDeviation =
        calculatePriceDeviation 50 100 2000) :=
  checkRebalanceNeeded_thresholdGate _ _ 2 (by decide)

/-- C3: the expected-amounts computation selects one of exactly three
regimes by comparing the pool's current sqrt price with the boundary sqrt
prices: current at or below the lower boundary yields amountB = 0 with
amountA over the full interval; current at or above the upper boundary
yields amountA = 0 with amountB over the full interval; otherwise both
amounts, substituting the current sqrt price for the lower boundary in
amountA and for the upper boundary in amountB. -/
theorem calculateExpectedAmounts_regimes (pool : Pool) (position : Position)
    (hrange : position.tickLower < position.tickUpper) :
    (pool.currentSqrtPrice ≤ tickToSqrtPrice position.tickLower →
      calculateExpectedAmounts pool position =
        (getAmountAFromLiquidity (tickToSqrtPrice position.tickLower)
          (tickToSqrtPrice position.tickUpper) position.liquidity, 0)) ∧
    (tickToSqrtPrice position.tickLower < pool.currentSqrtPrice →
      tickToSqrtPrice position.tickUpper ≤ pool.currentSqrtPrice →
      calculateExpectedAmounts pool position =
        (0, getAmountBFromLiquidity (tickToSqrtPrice position.tickLower)
          (tickToSqrtPrice position.tickUpper) position.liquidity)) ∧
    (tickToSqrtPrice position.tickLower < pool.currentSqrtPrice →
      pool.currentSqrtPrice < tickToSqrtPrice position.tickUpper →
      calculateExpectedAmounts pool position =
        (getAmountAFromLiquidity pool.currentSqrtPrice
          (tickToSqrtPrice position.tickUpper) position.liquidity,
         getAmountBFromLiquidity (tickToSqrtPrice position.tickLower)
          pool.currentSqrtPrice position.liquidity)) := by
  refine ⟨fun h1 => ?_, fun h1 h2 => ?_, fun h1 h2 => ?_⟩
  · rw [calculateExpectedAmounts, if_pos h1]
  · rw [calculateExpectedAmounts, if_neg (not_le.mpr h1), if_pos h2]
  · rw [calculateExpectedAmounts, if_neg (not_le.mpr h1), if_neg (not_le.mpr h2)]

/-- C3 witness: the regime theorem applied with a current sqrt price of 0,
which is at or below the lower boundary of range [1000, 2000]. -/
theorem calculateExpectedAmounts_regimes_witness :
    calculateExpectedAmounts ⟨"pool", "A", "B", 0, 0, 60, 3/1000⟩
        ⟨"pos", "pool", 1000, 2000, 1000000, "A", "B"⟩ =
      (getAmountAFromLiquidity (tickToSqrtPrice 1000) (tickToSqrtPrice 2000)
        1000000, 0) :=
  (calculateExpectedAmounts_regimes _ _ (by decide)).1 (Nat.zero_le _)

/-- Helper: 1.0001 ^ t is positive. -/
theorem tickPriceQ_pos (t : ℤ) : 0 < tickPriceQ t :=
  zpow_pos (by norm_num) t

/-- Helper: 1.0001 ^ t is strictly increasing in t. -/
theorem tickPriceQ_lt_of_lt {t1 t2 : ℤ} (h : t1 < t2) :
    tickPriceQ t1 < tickPriceQ t2 :=
  zpow_lt_zpow_right₀ (by norm_num) h

/-- Helper: toFixed2 of a negative rational whose scaled rounding is known. -/
theorem toFixed2_of_neg (q : ℚ) (m : ℕ) (hneg : q < 0)
    (hm : round (|q| * 100) = (m : ℤ)) :
    toFixed2 q = "-" ++ Nat.repr (m / 100) ++ "." ++
      (if m % 100 < 10 then "0" ++ Nat.repr (m % 100) else Nat.repr (m % 100)) := by
  rw [toFixed2]
  rw [hm, if_pos hneg]
  simp

/-- C9 counterexample: in decision scenario C (range [100, 2000],
currentTick 0, threshold 1/2 so the deviation magnitude exceeds it) the
decision triggers, but its reason is the fixed sentence
"Price moved -0.99% outside range": it does not name the lower boundary -
neither the word "lower" nor the boundary value 100 occurs in it. -/
theorem checkRebalanceNeeded_scenarioC_reason_counterexample :
    (checkRebalanceNeeded ⟨"pool", "A", "B", 18446744073709551616, 0, 60, 3/1000⟩
        ⟨"pos", "pool", 100, 2000, 1000000, "A", "B"⟩ (1/2)).shouldRebalance = true ∧
    (checkRebalanceNeeded ⟨"pool", "A", "B", 18446744073709551616, 0, 60, 3/1000⟩
        ⟨"pos", "pool", 100, 2000, 1000000, "A", "B"⟩ (1/2)).reason =
      "Price moved -0.99% outside range" ∧
    strHasSeg (checkRebalanceNeeded ⟨"pool", "A", "B", 18446744073709551616, 0, 60, 3/1000⟩
        ⟨"pos", "pool", 100, 2000, 1000000, "A", "B"⟩ (1/2)).reason "lower" = false ∧
    strHasSeg (checkRebalanceNeeded ⟨"pool", "A", "B", 18446744073709551616, 0, 60, 3/1000⟩
        ⟨"pos", "pool", 100, 2000, 1000000, "A", "B"⟩ (1/2)).reason "100" = false := by
  have hneg : calculatePriceDeviation 0 100 2000 < 0 := by
    norm_num [calculatePriceDeviation, tickPriceQ]
  have hm : round (|calculatePriceDeviation 0 100 2000| * 100) = ((99:ℕ) : ℤ) := by
    rw [abs_of_neg hneg, round_eq, Int.floor_eq_iff]
    constructor
    · norm_num [calculatePriceDeviation, tickPriceQ]
    · norm_num [calculatePriceDeviation, tickPriceQ]
  have hfix : toFixed2 (calculatePriceDeviation 0 100 2000) = "-0.99" := by
    rw [toFixed2_of_neg _ 99 hneg hm]
    decide
  have htr : ¬(|calculatePriceDeviation 0 100 2000| < 1/2) := by
    rw [abs_of_neg hneg, not_lt]
    norm_num [calculatePriceDeviation, tickPriceQ]
  have hdec : checkRebalanceNeeded ⟨"pool", "A", "B", 18446744073709551616, 0, 60, 3/1000⟩
      ⟨"pos", "pool", 100, 2000, 1000000, "A", "B"⟩ (1/2) =
      { shouldRebalance := true
        reason := "Price moved " ++ toFixed2 (calculatePriceDeviation 0 100 2000)
          ++ "% outside range"
        currentTick := 0
        tickLower := 100
        tickUpper := 2000
        priceDeviation := calculatePriceDeviation 0 100 2000 } := by
    rw [checkRebalanceNeeded]
    rw [if_neg (by decide)]
    rw [if_neg htr]
  rw [hdec, hfix]
  exact ⟨rfl, by decide, by decide, by decide⟩

/-- C9 amended: whenever the decision triggers, the reason is the template
"Price moved D% outside range" with D the deviation rendered to two
decimals; the direction of the breach is recorded only through the sign of
D (negative for a breach below tickLower, positive for a breach above
tickUpper), and the breached boundary is not named. -/
theorem checkRebalanceNeeded_trigger_reason (pool : Pool) (position : Position)
    (θ : ℚ) (hrange : position.tickLower ≤ position.tickUpper)
    (hout : ¬(position.tickLower ≤ pool.currentTick ∧
              pool.currentTick < position.tickUpper))
    (htr : θ ≤ |calculatePriceDeviation pool.currentTick position.tickLower
            position.tickUpper|) :
    (checkRebalanceNeeded pool position θ).reason =
      "Price moved " ++ toFixed2 (calculatePriceDeviation pool.currentTick
        position.tickLower position.tickUpper) ++ "% outside range" ∧
    (pool.currentTick < position.tickLower →
      calculatePriceDeviation pool.currentTick position.tickLower
        position.tickUpper < 0) ∧
    (position.tickUpper < pool.currentTick →
      0 < calculatePriceDeviation pool.currentTick position.tickLower
        position.tickUpper) := by
  have hnot : ¬(isTickInRange pool.currentTick position.tickLower
      position.tickUpper = true) := by
    simp only [isTickInRange, Bool.and_eq_true, decide_eq_true_eq]
    intro h
    exact hout h
  refine ⟨?_, fun hbelow => ?_, fun habove => ?_⟩
  · rw [checkRebalanceNeeded, if_neg hnot]
    dsimp only
    rw [if_neg (not_lt.mpr htr)]
  · rw [calculatePriceDeviation, if_pos hbelow]
    have h1 : tickPriceQ pool.currentTick < tickPriceQ position.tickLower :=
      tickPriceQ_lt_of_lt hbelow
    exact mul_neg_of_neg_of_pos
      (div_neg_of_neg_of_pos (sub_neg.mpr h1) (tickPriceQ_pos _)) (by norm_num)
  · rw [calculatePriceDeviation, if_neg (by omega)]
    have h1 : tickPriceQ position.tickUpper < tickPriceQ pool.currentTick :=
      tickPriceQ_lt_of_lt habove
    exact mul_pos
      (div_pos (sub_pos.mpr h1) (tickPriceQ_pos _)) (by norm_num)

/-- C9 amended witness: the trigger-reason theorem applied in scenario C
(range [100, 2000], currentTick 0, threshold 1/2). -/
theorem checkRebalanceNeeded_trigger_reason_witness :
    (checkRebalanceNeeded ⟨"pool", "A", "B", 18446744073709551616, 0, 60, 1/100⟩
        ⟨"pos", "pool", 100, 2000, 500000, "A", "B"⟩ (1/2)).reason =
      "Price moved " ++ toFixed2 (calculatePriceDeviation 0 100 2000)
        ++ "% outside range" ∧
    ((0:ℤ) < 100 → calculatePriceDeviation 0 100 2000 < 0) ∧
    ((2000:ℤ) < 0 → 0 < calculatePriceDeviation 0 100 2000) :=
  checkRebalanceNeeded_trigger_reason _ _ (1/2) (by decide) (by decide)
    (by
      have hneg : calculatePriceDeviation 0 100 2000 < 0 := by
        norm_num [calculatePriceDeviation, tickPriceQ]
      rw [abs_of_neg hneg]
      norm_num [calculatePriceDeviation, tickPriceQ])

/-- Helper: aligning down does not increase the value. -/
theorem alignDown_le (a s : ℤ) (hs : 0 < s) : alignDown a s ≤ a :=
  sub_le_self _ (Int.emod_nonneg a hs.ne')

/-- Helper: aligning down moves by less than one spacing. -/
theorem lt_alignDown_add (a s : ℤ) (hs : 0 < s) : a < alignDown a s + s := by
  have h1 := Int.emod_lt_of_pos a hs
  unfold alignDown
  omega

/-- Helper: the aligned-down value is a multiple of the spacing. -/
theorem dvd_alignDown (a s : ℤ) : s ∣ alignDown a s :=
  ⟨a / s, by have := Int.ediv_add_emod a s; unfold alignDown; omega⟩

/-- Helper: aligning up does not decrease the value. -/
theorem le_alignUp (a s : ℤ) (hs : 0 < s) : a ≤ alignUp a s := by
  have h1 := lt_alignDown_add (a + s - 1) s hs
  unfold alignUp
  omega

/-- Helper: aligning up moves by less than one spacing. -/
theorem alignUp_lt_add (a s : ℤ) (hs : 0 < s) : alignUp a s < a + s := by
  have h1 := alignDown_le (a + s - 1) s hs
  unfold alignUp
  omega

/-- Helper: the aligned-up value is a multiple of the spacing. -/
theorem dvd_alignUp (a s : ℤ) : s ∣ alignUp a s :=
  dvd_alignDown _ _

/-- Helper: the half width is zero for width percent zero. -/
theorem halfWidthTicks_zero : halfWidthTicks 0 = 0 := by
  rw [halfWidthTicks]
  simp

/-- C8: every range calculateTickRange returns has both bounds exact
multiples of the tick spacing and keeps the current tick strictly inside
(whenever a range is returned at all, i.e. whenever geometrically
possible; otherwise the computation fails with InvalidRangeError). -/
theorem calculateTickRange_aligned (currentTick : ℤ) (widthPercent : ℚ)
    (tickSpacing : ℤ) (r : TickRange) (hs : 0 < tickSpacing)
    (hok : calculateTickRange currentTick widthPercent tickSpacing = .ok r) :
    tickSpacing ∣ r.tickLower ∧ tickSpacing ∣ r.tickUpper ∧
    r.tickLower < currentTick ∧ currentTick < r.tickUpper := by
  rw [calculateTickRange] at hok
  set H := halfWidthTicks widthPercent with hH
  set A := alignDown (currentTick - H) tickSpacing with hA
  set B := alignUp (currentTick + H) tickSpacing with hB
  have f1 : A ≤ currentTick - H := alignDown_le _ _ hs
  have f2 : currentTick - H < A + tickSpacing := lt_alignDown_add _ _ hs
  have f3 : tickSpacing ∣ A := dvd_alignDown _ _
  have f4 : currentTick + H ≤ B := le_alignUp _ _ hs
  have f5 : B < currentTick + H + tickSpacing := alignUp_lt_add _ _ hs
  have f6 : tickSpacing ∣ B := dvd_alignUp _ _
  by_cases hc : MIN_TICK ≤ (if A = currentTick then A - tickSpacing else A) ∧
      (if B = currentTick then B + tickSpacing else B) ≤ MAX_TICK ∧
      (if A = currentTick then A - tickSpacing else A) <
        (if B = currentTick then B + tickSpacing else B)
  · rw [if_pos hc] at hok
    have hr : r = ⟨if A = currentTick then A - tickSpacing else A,
        if B = currentTick then B + tickSpacing else B⟩ :=
      (Except.ok.inj hok).symm
    subst hr
    obtain ⟨hmin, hmax, hlu⟩ := hc
    have fdl : tickSpacing ∣ (if A = currentTick then A - tickSpacing else A) := by
      split
      · exact dvd_sub f3 dvd_rfl
      · exact f3
    have fdu : tickSpacing ∣ (if B = currentTick then B + tickSpacing else B) := by
      split
      · exact dvd_add f6 dvd_rfl
      · exact f6
    have hstep : (if A = currentTick then A - tickSpacing else A) + tickSpacing ≤
        (if B = currentTick then B + tickSpacing else B) := by
      have hd : tickSpacing ∣ ((if B = currentTick then B + tickSpacing else B) -
          (if A = currentTick then A - tickSpacing else A)) := dvd_sub fdu fdl
      have := Int.le_of_dvd (by omega) hd
      omega
    refine ⟨fdl, fdu, ?_, ?_⟩
    · dsimp only
      by_cases hcl : A = currentTick
      · rw [if_pos hcl]
        omega
      · rw [if_neg hcl]
        by_contra hgt
        push_neg at hgt
        have hlt : currentTick < A := lt_of_le_of_ne hgt (fun e => hcl e.symm)
        by_cases hcu : B = currentTick
        · rw [if_pos hcu, if_neg hcl] at hstep
          omega
        · rw [if_neg hcu, if_neg hcl] at hstep
          omega
    · dsimp only
      by_cases hcu : B = currentTick
      · rw [if_pos hcu]
        omega
      · rw [if_neg hcu]
        by_contra hgt
        push_neg at hgt
        have hlt : B < currentTick := lt_of_le_of_ne hgt hcu
        by_cases hcl : A = currentTick
        · rw [if_pos hcl, if_neg hcu] at hstep
          omega
        · rw [if_neg hcl, if_neg hcu] at hstep
          omega
  · rw [if_neg hc] at hok
    simp at hok

/-- C8 witness: the alignment theorem applied at currentTick 50, width
percent 0 and tick spacing 10, where the computed range is [40, 60]. -/
theorem calculateTickRange_aligned_witness :
    (10:ℤ) ∣ (⟨40, 60⟩ : TickRange).tickLower ∧
    (10:ℤ) ∣ (⟨40, 60⟩ : TickRange).tickUpper ∧
    (⟨40, 60⟩ : TickRange).tickLower < 50 ∧
    (50:ℤ) < (⟨40, 60⟩ : TickRange).tickUpper :=
  calculateTickRange_aligned 50 0 10 ⟨40, 60⟩ (by decide)
    (by
      rw [calculateTickRange, halfWidthTicks_zero]
      norm_num [alignDown, alignUp, MIN_TICK, MAX_TICK])

/-- Helper: executable form of rounding a rational square root half-up. -/
theorem round_sqrt_ratCast (q : ℚ) (hq : 0 ≤ q) :
    round (Real.sqrt ((q:ℝ))) = ((Nat.sqrt ⌊4 * q⌋₊ + 1) / 2 : ℕ) := by
  set s := Nat.sqrt ⌊4 * q⌋₊ with hs
  set x := Real.sqrt ((q:ℝ)) with hx
  have hx0 : (0:ℝ) ≤ x := Real.sqrt_nonneg _
  have hqR : (0:ℝ) ≤ (q:ℝ) := by exact_mod_cast hq
  have hxsq : x ^ 2 = (q:ℝ) := Real.sq_sqrt hqR
  have h4q : (0:ℚ) ≤ 4 * q := by linarith
  have a3 : ((4 * q : ℚ) : ℝ) = (2 * x) ^ 2 := by
    push_cast
    rw [mul_pow, hxsq]
    norm_num
  have key1 : (s:ℝ) ≤ 2 * x := by
    have a1 : ((s:ℝ)) ^ 2 ≤ ((⌊4 * q⌋₊ : ℕ) : ℝ) := by
      exact_mod_cast Nat.sqrt_le' ⌊4 * q⌋₊
    have a2 : ((⌊4 * q⌋₊ : ℕ) : ℝ) ≤ ((4 * q : ℚ) : ℝ) := by
      exact_mod_cast Nat.floor_le h4q
    have a4 : (s:ℝ) ^ 2 ≤ (2 * x) ^ 2 := by linarith
    exact le_of_pow_le_pow_left₀ two_ne_zero (by positivity) a4
  have key2 : 2 * x < (s:ℝ) + 1 := by
    have b1 : ((4 * q : ℚ) : ℝ) < ((⌊4 * q⌋₊ : ℕ) : ℝ) + 1 := by
      exact_mod_cast Nat.lt_floor_add_one (4 * q)
    have b2 : (⌊4 * q⌋₊ : ℕ) + 1 ≤ (s + 1) ^ 2 := Nat.succ_le_of_lt (Nat.lt_succ_sqrt' _)
    have b2R : ((⌊4 * q⌋₊ : ℕ) : ℝ) + 1 ≤ ((s:ℝ) + 1) ^ 2 := by exact_mod_cast b2
    have b4 : (2 * x) ^ 2 < ((s:ℝ) + 1) ^ 2 := by linarith
    exact lt_of_pow_lt_pow_left₀ 2 (by positivity) b4
  rcases Nat.even_or_odd s with he | ho
  · obtain ⟨k, hk⟩ := he
    have hdiv : (s + 1) / 2 = k := by omega
    rw [hdiv, round_eq, Int.floor_eq_iff]
    have hkR : (s:ℝ) = (k:ℝ) + (k:ℝ) := by exact_mod_cast congrArg Nat.cast hk
    constructor
    · push_cast
      linarith
    · push_cast
      linarith
  · obtain ⟨k, hk⟩ := ho
    have hdiv : (s + 1) / 2 = k + 1 := by omega
    rw [hdiv, round_eq, Int.floor_eq_iff]
    have hkR : (s:ℝ) = 2 * (k:ℝ) + 1 := by exact_mod_cast congrArg Nat.cast hk
    constructor
    · push_cast
      linarith
    · push_cast
      linarith

/-- Helper: the exact price as a real number is 1.0001 ^ t. -/
theorem tickPriceQ_castR (t : ℤ) :
    ((tickPriceQ t : ℚ) : ℝ) = (10001/10000 : ℝ) ^ t := by
  rw [tickPriceQ]
  push_cast
  norm_num

/-- Helper: the integer core equals round(2^64 * sqrt(price)). -/
theorem sqrtPriceX64OfTick_eq_round (t : ℤ) :
    sqrtPriceX64OfTick t = round ((2:ℝ) ^ 64 * Real.sqrt ((tickPriceQ t : ℝ))) := by
  have hq : (0:ℚ) ≤ tickPriceQ t * 2 ^ 128 := by
    have := tickPriceQ_pos t
    positivity
  have h1 : ⌊tickPriceQ t * 2 ^ 130⌋₊ = ⌊4 * (tickPriceQ t * 2 ^ 128)⌋₊ := by
    congr 1
    ring
  rw [sqrtPriceX64OfTick, h1, ← round_sqrt_ratCast _ hq]
  congr 1
  push_cast
  rw [Real.sqrt_mul (by exact_mod_cast (tickPriceQ_pos t).le)]
  rw [show ((2:ℝ)^(128:ℕ)) = ((2:ℝ)^(64:ℕ))^2 by ring, Real.sqrt_sq (by positivity)]
  ring

/-- Helper: 1.0001 ^ m is at most exp(m/10000). -/
theorem base_pow_le_exp (m : ℕ) :
    (10001/10000 : ℝ) ^ m ≤ Real.exp ((m : ℝ) / 10000) := by
  have h1 : (10001/10000 : ℝ) ≤ Real.exp (1/10000) := by
    have := Real.add_one_le_exp (1/10000 : ℝ)
    linarith
  calc (10001/10000 : ℝ) ^ m ≤ (Real.exp (1/10000)) ^ m :=
        pow_le_pow_left₀ (by norm_num) h1 m
    _ = Real.exp ((m : ℝ) * (1/10000)) := (Real.exp_nat_mul _ m).symm
    _ = Real.exp ((m : ℝ) / 10000) := by congr 1; ring

/-- Helper: lower bound for sqrt(1.0001 ^ t) when t ≥ -2m. -/
theorem sqrt_tickPrice_lb (t : ℤ) (m : ℕ) (hm : -(2 * (m:ℤ)) ≤ t) :
    ((10001/10000 : ℝ) ^ ((m:ℕ):ℤ))⁻¹ ≤ Real.sqrt ((tickPriceQ t : ℝ)) := by
  have hb1 : (1:ℝ) ≤ 10001/10000 := by norm_num
  have hb0 : (0:ℝ) < 10001/10000 := by norm_num
  have h1 : (10001/10000 : ℝ) ^ (-(2 * (m:ℤ))) ≤ (10001/10000 : ℝ) ^ t :=
    zpow_le_zpow_right₀ hb1 hm
  have h3 : Real.sqrt ((10001/10000 : ℝ) ^ (-(2 * (m:ℤ)))) =
      (10001/10000 : ℝ) ^ (-(m:ℤ)) := by
    have hsplit : (10001/10000 : ℝ) ^ (-(2 * (m:ℤ))) =
        ((10001/10000 : ℝ) ^ (-(m:ℤ))) * ((10001/10000 : ℝ) ^ (-(m:ℤ))) := by
      rw [← zpow_add₀ (ne_of_gt hb0)]
      congr 1
      ring
    rw [hsplit]
    exact Real.sqrt_mul_self (le_of_lt (zpow_pos hb0 _))
  have h2 := Real.sqrt_le_sqrt h1
  rw [h3] at h2
  rw [tickPriceQ_castR]
  rw [zpow_neg] at h2
  exact h2

/-- Helper: numeric bound 1.0001 ^ 221818 ≤ 10^10. -/
theorem base_zpow_221818_le : ((10001/10000 : ℝ) ^ ((221818:ℕ):ℤ)) ≤ 10 ^ 10 := by
  rw [zpow_natCast]
  calc (10001/10000:ℝ) ^ (221818:ℕ) ≤ Real.exp ((221818:ℕ) / 10000 : ℝ) :=
        base_pow_le_exp _
    _ ≤ Real.exp 23 := Real.exp_le_exp.mpr (by norm_num)
    _ = Real.exp 1 ^ (23:ℕ) := by rw [← Real.exp_nat_mul]; norm_num
    _ ≤ (2.7182818286:ℝ) ^ (23:ℕ) :=
        pow_le_pow_left₀ (Real.exp_pos 1).le Real.exp_one_lt_d9.le _
    _ ≤ 10 ^ 10 := by norm_num

/-- Helper: sqrt(1.0001) exceeds 1 by at least 4.9998e-5. -/
theorem sqrt_base_lb : (1 + 49998/10^9 : ℝ) ≤ Real.sqrt (10001/10000) := by
  have h : ((1 + 49998/10^9 : ℝ)) = Real.sqrt ((1 + 49998/10^9 : ℝ)^2) :=
    (Real.sqrt_sq (by norm_num)).symm
  rw [h]
  exact Real.sqrt_le_sqrt (by norm_num)

/-- Helper: consecutive exact sqrt prices are at least 1 apart (before
rounding), for in-bounds ticks. -/
theorem mono_gap (t1 t2 : ℤ) (hlt : t1 < t2) (hlb : -443636 ≤ t1) :
    (2:ℝ)^64 * Real.sqrt ((tickPriceQ t1 : ℝ)) + 1 ≤
    (2:ℝ)^64 * Real.sqrt ((tickPriceQ t2 : ℝ)) := by
  have hb0 : (0:ℝ) < 10001/10000 := by norm_num
  have hx1lb : ((10001/10000 : ℝ) ^ ((221818:ℕ):ℤ))⁻¹ ≤
      Real.sqrt ((tickPriceQ t1 : ℝ)) :=
    sqrt_tickPrice_lb t1 221818 (by push_cast; omega)
  have hx1lb' : ((10:ℝ)^10)⁻¹ ≤ Real.sqrt ((tickPriceQ t1 : ℝ)) :=
    le_trans (inv_anti₀ (zpow_pos hb0 _) base_zpow_221818_le) hx1lb
  have hx2x1 : Real.sqrt ((tickPriceQ t1 : ℝ)) * Real.sqrt (10001/10000) ≤
      Real.sqrt ((tickPriceQ t2 : ℝ)) := by
    have k1 : (10001/10000:ℝ) ^ (t1+1) ≤ (10001/10000:ℝ) ^ t2 :=
      zpow_le_zpow_right₀ (by norm_num) (by omega)
    have k2 := Real.sqrt_le_sqrt k1
    have k3 : Real.sqrt ((10001/10000:ℝ) ^ (t1+1)) =
        Real.sqrt ((tickPriceQ t1 : ℝ)) * Real.sqrt (10001/10000) := by
      rw [zpow_add_one₀ (ne_of_gt hb0)]
      rw [Real.sqrt_mul (le_of_lt (zpow_pos hb0 _))]
      rw [tickPriceQ_castR]
    rw [k3, ← tickPriceQ_castR t2] at k2
    exact k2
  have hsb := sqrt_base_lb
  have hprod : ((10:ℝ)^10)⁻¹ * (49998/10^9) ≤
      Real.sqrt ((tickPriceQ t1 : ℝ)) * (Real.sqrt (10001/10000) - 1) := by
    apply mul_le_mul hx1lb' (by linarith only [hsb]) (by norm_num)
      (by linarith only [hx1lb', (by norm_num : (0:ℝ) < ((10:ℝ)^10)⁻¹)])
  have hexp : Real.sqrt ((tickPriceQ t1 : ℝ)) * Real.sqrt (10001/10000) =
      Real.sqrt ((tickPriceQ t1 : ℝ)) +
      Real.sqrt ((tickPriceQ t1 : ℝ)) * (Real.sqrt (10001/10000) - 1) := by
    ring
  have hconst : (1:ℝ) ≤ (2:ℝ)^64 * (((10:ℝ)^10)⁻¹ * (49998/10^9)) := by norm_num
  linarith only [hx2x1, hprod, hexp, hconst]

/-- C6: tickIndexToSqrtPriceX64 is strictly monotonically increasing on
in-bounds ticks. -/
theorem tickIndexToSqrtPriceX64_strictMono (t1 t2 v1 v2 : ℤ)
    (hlb : -443636 ≤ t1) (hub : t2 ≤ 443636) (hlt : t1 < t2)
    (e1 : tickIndexToSqrtPriceX64 t1 = .ok v1)
    (e2 : tickIndexToSqrtPriceX64 t2 = .ok v2) : v1 < v2 := by
  have hv1 : v1 = sqrtPriceX64OfTick t1 := by
    rw [tickIndexToSqrtPriceX64,
      if_neg (by simp only [MIN_TICK, MAX_TICK]; omega)] at e1
    exact (Except.ok.inj e1).symm
  have hv2 : v2 = sqrtPriceX64OfTick t2 := by
    rw [tickIndexToSqrtPriceX64,
      if_neg (by simp only [MIN_TICK, MAX_TICK]; omega)] at e2
    exact (Except.ok.inj e2).symm
  rw [hv1, hv2, sqrtPriceX64OfTick_eq_round, sqrtPriceX64OfTick_eq_round]
  have hgap := mono_gap t1 t2 hlt hlb
  have h2 : round (((2:ℝ)^64 * Real.sqrt ((tickPriceQ t1 : ℝ))) + 1) ≤
      round ((2:ℝ)^64 * Real.sqrt ((tickPriceQ t2 : ℝ))) := by
    rw [round_eq, round_eq]
    exact Int.floor_le_floor (by linarith)
  rw [show ((1:ℝ)) = ((1:ℤ):ℝ) by norm_num, round_add_int] at h2
  omega

theorem tickIndexToSqrtPriceX64_strictMono_witness :
    sqrtPriceX64OfTick 0 < sqrtPriceX64OfTick 1 :=
  tickIndexToSqrtPriceX64_strictMono 0 1 _ _ (by decide) (by decide) (by decide) rfl rfl

set_option maxRecDepth 4000 in
/-- Helper: the round-trip bound, stated over abstract names x and u for the
exact square-root price and its 2^64 scaling (keeping the proof term free of
local let-bindings). -/
theorem roundTrip_aux (t v : ℤ) (h1 : -400000 ≤ t) (h2 : t ≤ 400000)
    (e : tickIndexToSqrtPriceX64 t = .ok v) (x u : ℝ)
    (hx : x = Real.sqrt ((tickPriceQ t : ℝ))) (hu : u = (2:ℝ)^64 * x) :
    |sqrtPriceX64ToTickIndex v - t| ≤ 1 := by
  have hv : v = sqrtPriceX64OfTick t := by
    rw [tickIndexToSqrtPriceX64,
      if_neg (by simp only [MIN_TICK, MAX_TICK]; omega)] at e
    exact (Except.ok.inj e).symm
  have hbpos : (0:ℝ) < 10001/10000 := by norm_num
  have hxlb : ((10001/10000 : ℝ) ^ ((200000:ℕ):ℤ))⁻¹ ≤ x := by
    rw [hx]
    exact sqrt_tickPrice_lb t 200000 (by push_cast; omega)
  have hpow20 : ((10001/10000 : ℝ) ^ ((200000:ℕ):ℤ)) ≤ 485200000 := by
    rw [zpow_natCast]
    calc (10001/10000:ℝ)^(200000:ℕ) ≤ Real.exp ((200000:ℕ)/10000 : ℝ) :=
          base_pow_le_exp _
      _ ≤ Real.exp 20 := Real.exp_le_exp.mpr (by norm_num)
      _ = Real.exp 1 ^ (20:ℕ) := by rw [← Real.exp_nat_mul]; norm_num
      _ ≤ (2.7182818286:ℝ)^(20:ℕ) :=
          pow_le_pow_left₀ (Real.exp_pos 1).le Real.exp_one_lt_d9.le _
      _ ≤ 485200000 := by norm_num
  have hxlb' : (485200000:ℝ)⁻¹ ≤ x :=
    le_trans (inv_anti₀ (zpow_pos hbpos _) hpow20) hxlb
  have hxpos : (0:ℝ) < x := lt_of_lt_of_le (by norm_num) hxlb'
  have hxne : x ≠ 0 := ne_of_gt hxpos
  have hulb : (3:ℝ)*10^10 ≤ u := by
    rw [hu]
    calc (3:ℝ)*10^10 ≤ (2:ℝ)^64 * (485200000:ℝ)⁻¹ := by norm_num
      _ ≤ 2^64 * x := mul_le_mul_of_nonneg_left hxlb' (by positivity)
  have hvz : v = round u := by
    rw [hv, sqrtPriceX64OfTick_eq_round, hu, hx]
  have hvu : |(v:ℝ) - u| ≤ 1/2 := by
    rw [hvz]
    have h3 := abs_sub_round u
    rw [abs_sub_comm] at h3
    exact h3
  have hvlb : (2:ℝ)*10^10 ≤ (v:ℝ) := by
    have h5 := (abs_le.mp hvu).1
    linarith only [h5, hulb]
  have hvpos : (0:ℝ) < (v:ℝ) := by linarith only [hvlb]
  have hupos : (0:ℝ) < u := by linarith only [hulb]
  have hlogb_pos : (0:ℝ) < Real.log (10001/10000) := Real.log_pos (by norm_num)
  rw [sqrtPriceX64ToTickIndex]
  have hdecomp : Real.logb (10001/10000) (((v:ℝ)/2^64)^2) =
      (t:ℝ) + (2 * Real.log ((v:ℝ)/u)) / Real.log (10001/10000) := by
    rw [Real.logb, Real.log_pow]
    have hsplit : (v:ℝ)/2^64 = ((v:ℝ)/u) * x := by
      rw [hu]
      field_simp
      ring
    rw [hsplit, Real.log_mul (div_ne_zero hvpos.ne' hupos.ne') hxpos.ne']
    rw [hx, tickPriceQ_castR, Real.log_sqrt (le_of_lt (zpow_pos hbpos _)),
      Real.log_zpow]
    field_simp
    ring
  rw [hdecomp]
  have hvd := (abs_le.mp hvu).2
  have hud := (abs_le.mp hvu).1
  have hlog_up : Real.log ((v:ℝ)/u) ≤ 1/(4*10^10) := by
    have h := Real.log_le_sub_one_of_pos (show (0:ℝ) < (v:ℝ)/u by positivity)
    have hstep : (v:ℝ)/u - 1 ≤ 1/(4*10^10) := by
      have e1 : (v:ℝ)/u - 1 = ((v:ℝ) - u)/u := by
        field_simp
      rw [e1]
      calc ((v:ℝ) - u)/u ≤ (1/2)/u := by gcongr <;> linarith only [hvd]
        _ ≤ (1/2)/(3*10^10) := by gcongr <;> linarith only [hulb]
        _ ≤ 1/(4*10^10) := by norm_num
    linarith only [h, hstep]
  have hlog_dn : -(1/(4*10^10)) ≤ Real.log ((v:ℝ)/u) := by
    have h := Real.log_le_sub_one_of_pos (show (0:ℝ) < u/(v:ℝ) by positivity)
    have hinv : Real.log (u/(v:ℝ)) = -Real.log ((v:ℝ)/u) := by
      rw [← Real.log_inv]
      congr 1
      rw [inv_div]
    have hstep : u/(v:ℝ) - 1 ≤ 1/(4*10^10) := by
      have e1 : u/(v:ℝ) - 1 = (u - (v:ℝ))/(v:ℝ) := by field_simp
      rw [e1]
      calc (u - (v:ℝ))/(v:ℝ) ≤ (1/2)/(v:ℝ) := by gcongr <;> linarith only [hud]
        _ ≤ (1/2)/(2*10^10) := by gcongr <;> linarith only [hvlb]
        _ ≤ 1/(4*10^10) := by norm_num
    rw [hinv] at h
    linarith only [h, hstep]
  have hlogb_lb : (1/10001 : ℝ) ≤ Real.log (10001/10000) := by
    have h := Real.log_le_sub_one_of_pos (show (0:ℝ) < (10000:ℝ)/10001 by norm_num)
    have hinv : Real.log ((10000:ℝ)/10001) = -Real.log (10001/10000) := by
      rw [← Real.log_inv]
      congr 1
      norm_num
    rw [hinv] at h
    have h6 : (10000:ℝ)/10001 - 1 = -(1/10001) := by norm_num
    linarith only [h, h6]
  have hdelta : |(2 * Real.log ((v:ℝ)/u)) / Real.log (10001/10000)| < 1/2 := by
    rw [abs_div, abs_of_pos hlogb_pos, div_lt_iff₀ hlogb_pos]
    have habs : |2 * Real.log ((v:ℝ)/u)| ≤ 2 * (1/(4*10^10)) := by
      rw [abs_mul, abs_of_nonneg (by norm_num : (0:ℝ) ≤ 2)]
      have h4 : |Real.log ((v:ℝ)/u)| ≤ 1/(4*10^10) := abs_le.mpr ⟨hlog_dn, hlog_up⟩
      linarith only [h4]
    calc |2 * Real.log ((v:ℝ)/u)| ≤ 2*(1/(4*10^10)) := habs
      _ < (1/2) * (1/10001) := by norm_num
      _ ≤ (1/2) * Real.log (10001/10000) :=
          mul_le_mul_of_nonneg_left hlogb_lb (by norm_num)
  have hround : round ((t:ℝ) + (2 * Real.log ((v:ℝ)/u)) / Real.log (10001/10000))
      = t := by
    rw [add_comm, round_add_int]
    have hz : round ((2 * Real.log ((v:ℝ)/u)) / Real.log (10001/10000)) = 0 := by
      rw [round_eq]
      apply Int.floor_eq_iff.mpr
      obtain ⟨hd1, hd2⟩ := abs_lt.mp hdelta
      constructor
      · push_cast
        linarith only [hd1, hd2]
      · push_cast
        linarith only [hd1, hd2]
    rw [hz, zero_add]
  rw [hround]
  simp

/-- C7: for every tick in [-400000, 400000], converting to a sqrt price
and back yields a tick within 1 of the original. -/
theorem sqrtPriceX64ToTickIndex_roundTrip (t v : ℤ) (h1 : -400000 ≤ t)
    (h2 : t ≤ 400000) (e : tickIndexToSqrtPriceX64 t = .ok v) :
    |sqrtPriceX64ToTickIndex v - t| ≤ 1 :=
  roundTrip_aux t v h1 h2 e _ _ rfl rfl

/-- C7 witness: the round-trip theorem applied at tick 0. -/
theorem sqrtPriceX64ToTickIndex_roundTrip_witness :
    |sqrtPriceX64ToTickIndex (sqrtPriceX64OfTick 0) - 0| ≤ 1 :=
  sqrtPriceX64ToTickIndex_roundTrip 0 (sqrtPriceX64OfTick 0)
    (by decide) (by decide) rfl
